import Mathlib

/-!
Shallow embedding of the MK66 memory protection unit driver
(`src/chips/mk66/src/mpu.rs`) and proofs about its allocation and
hardware-synchronization logic.

All machine arithmetic is `u32`/`usize` on a 32-bit target; we model it
with `Nat` and explicit reduction modulo `2 ^ 32` at every operation that
can wrap, matching release-mode wrapping semantics.
-/

namespace MK66

/-- The u32 modulus. -/
def U32 : Nat := 2 ^ 32

/-- Wrap a value into u32 range (Rust release-mode wrapping arithmetic). -/
def wrap (a : Nat) : Nat := a % U32

/-- Wrapping u32 subtraction `a - b` for `b < 2^32`. -/
def wsub (a b : Nat) : Nat := wrap (a + U32 - b % U32)

/-- `kernel::mpu::Permissions`, as matched by `Region::new`. -/
inductive Permissions where
  | ReadWriteExecute
  | ReadWriteOnly
  | ReadExecuteOnly
  | ReadOnly
  | ExecuteOnly
deriving DecidableEq, Repr

/-- `struct Region { start: u32, end: u32, permissions: u32 }`. -/
structure Region where
  start : Nat
  end_ : Nat
  permissions : Nat
deriving DecidableEq, Repr

/-- `Region::new`: encode the requested permission as the 3-bit user-mode
access-control value and store the given bounds. -/
def Region.new (start end_ : Nat) (permissions : Permissions) : Region :=
  let permissions : Nat :=
    match permissions with
    | .ReadWriteExecute => 0b111
    | .ReadWriteOnly => 0b110
    | .ReadExecuteOnly => 0b101
    | .ReadOnly => 0b100
    | .ExecuteOnly => 0b001
  { start := start, end_ := end_, permissions := permissions }

/-- `const APP_MEMORY_INDEX: usize = 1`. -/
def APP_MEMORY_INDEX : Nat := 1

/-- `struct MK66Config { memory: Option<(u32, u32)>, regions: [Option<Region>; 11] }`. -/
structure MK66Config where
  memory : Option (Nat × Nat)
  regions : List (Option Region)
deriving DecidableEq, Repr

/-- `impl Default for MK66Config`: no recorded memory pair, all 11 slots empty. -/
def MK66Config.default : MK66Config :=
  { memory := none, regions := List.replicate 11 none }

/-- The loop body of `MK66Config::available_region_index`: scan the slots,
carrying the running index, skipping `APP_MEMORY_INDEX`, returning the first
index holding `None`. -/
def findFree : List (Option Region) → Nat → Option Nat
  | [], _ => none
  | r :: rest, index =>
    if index = APP_MEMORY_INDEX then findFree rest (index + 1)
    else
      match r with
      | none => some index
      | some _ => findFree rest (index + 1)

/-- `MK66Config::available_region_index`. -/
def MK66Config.availableRegionIndex (c : MK66Config) : Option Nat :=
  findFree c.regions 0

/-- `round_up_to_nearest_multiple(x, y)`: rounds `x` up to the nearest
multiple of `y` in wrapping u32 arithmetic (`x + y - (x % y)`). -/
def roundUpToNearestMultiple (x y : Nat) : Nat :=
  if x % y = 0 then x else wsub (wrap (x + y)) (x % y)

/-- The two distinct failure exits of `allocate_region` (both are `None` in
the Rust signature; the spec names them `CapacityExhausted` and `TableFull`). -/
inductive MpuError where
  | CapacityExhausted
  | TableFull
deriving DecidableEq, Repr

deriving instance DecidableEq for Except

/-- `allocate_region`: round the start and size up to 32-byte alignment,
fail if the rounded region overruns the unallocated span, fail if no free
slot exists, otherwise store the region and return the rounded pair.
Returns the updated configuration alongside the result, modelling the
`&mut` argument. -/
def allocateRegion (unallocatedMemoryStart unallocatedMemorySize minRegionSize : Nat)
    (permissions : Permissions) (config : MK66Config) :
    Except MpuError ((Nat × Nat) × MK66Config) :=
  let regionStart := roundUpToNearestMultiple unallocatedMemoryStart 32
  let regionSize := roundUpToNearestMultiple minRegionSize 32
  let regionEnd := wrap (regionStart + regionSize)
  let unallocatedMemoryEnd := wrap (unallocatedMemoryStart + unallocatedMemorySize)
  if regionEnd > unallocatedMemoryEnd then
    .error .CapacityExhausted
  else
    match config.availableRegionIndex with
    | none => .error .TableFull
    | some index =>
      let region := Region.new regionStart regionEnd permissions
      .ok ((regionStart, regionSize),
        { config with regions := config.regions.set index (some region) })

/-- `allocate_app_memory_region`: size the total reserved span, align it,
carve the protected prefix region out of it, bump the span by 32 bytes if
the prefix plus the kernel-reserved tail would exceed it, check the span
fits, and store the prefix region at `APP_MEMORY_INDEX`. -/
def allocateAppMemoryRegion (unallocatedMemoryStart unallocatedMemorySize minMemorySize
    initialAppMemorySize initialKernelMemorySize : Nat) (permissions : Permissions)
    (config : MK66Config) : Option ((Nat × Nat) × MK66Config) :=
  let memorySize :=
    if minMemorySize < wrap (initialAppMemorySize + initialKernelMemorySize) then
      wrap (initialAppMemorySize + initialKernelMemorySize)
    else
      minMemorySize
  let memorySize := roundUpToNearestMultiple memorySize 32
  let memoryStart := roundUpToNearestMultiple unallocatedMemoryStart 32
  let regionStart := memoryStart
  let regionSize := roundUpToNearestMultiple initialAppMemorySize 32
  let regionEnd := wrap (regionStart + regionSize)
  let memorySize :=
    if wrap (regionSize + initialKernelMemorySize) > memorySize then wrap (memorySize + 32)
    else memorySize
  let memoryEnd := wrap (memoryStart + memorySize)
  let unallocatedMemoryEnd := wrap (unallocatedMemoryStart + unallocatedMemorySize)
  if memoryEnd > unallocatedMemoryEnd then
    none
  else
    let region := Region.new regionStart regionEnd permissions
    some ((memoryStart, memorySize),
      { config with regions := config.regions.set APP_MEMORY_INDEX (some region) })

/-- `update_app_memory_region`: fail if no app-memory region exists, fail if
the recorded `memory` pair is absent or misaligned, fail if the rounded app
break overruns the kernel break, otherwise replace the stored region.
`none` models `Err(())`; `some` carries the updated configuration. -/
def updateAppMemoryRegion (appMemoryBreak kernelMemoryBreak : Nat)
    (permissions : Permissions) (config : MK66Config) : Option MK66Config :=
  match config.regions.getD APP_MEMORY_INDEX none with
  | none => none
  | some _ =>
    match config.memory with
    | none => none
    | some (memoryStart, memoryEnd) =>
      if memoryStart % 32 ≠ 0 ∨ memoryEnd % 32 ≠ 0 then none
      else
        let regionStart := memoryStart
        let regionEnd := roundUpToNearestMultiple appMemoryBreak 32
        if regionEnd > kernelMemoryBreak then none
        else
          let region := Region.new regionStart regionEnd permissions
          some { config with regions := config.regions.set APP_MEMORY_INDEX (some region) }

/-- Extract the `width`-bit field of `v` at bit offset `off` (a register
bit-field read). -/
def getField (v off width : Nat) : Nat := v / 2 ^ off % 2 ^ width

/-- Write `x` into the `width`-bit field of `v` at bit offset `off`, leaving
the other bits intact (a register `modify`). -/
def setField (v off width x : Nat) : Nat :=
  v % 2 ^ off + x % 2 ^ width * 2 ^ off + v / 2 ^ (off + width) * 2 ^ (off + width)

/-- `RegionDescriptorWord2::M0SM`: OFFSET(3) NUMBITS(2). -/
def M0SM_OFFSET : Nat := 3
def M0SM_NUMBITS : Nat := 2
/-- `M0SM::ReadWriteExecute = 0` — supervisor granted full access. -/
def M0SM_ReadWriteExecute : Nat := 0
/-- `M0SM::SameAsUserMode = 3` — supervisor restricted to the user-mode grant. -/
def M0SM_SameAsUserMode : Nat := 3
/-- `RegionDescriptorWord2::M0UM`: OFFSET(0) NUMBITS(3). -/
def M0UM_OFFSET : Nat := 0
def M0UM_NUMBITS : Nat := 3

/-- One hardware region descriptor `MpuRegionDescriptor` (four 32-bit words). -/
structure MpuRegionDescriptor where
  rgd_word0 : Nat
  rgd_word1 : Nat
  rgd_word2 : Nat
  rgd_word3 : Nat
deriving DecidableEq, Repr

/-- An all-zero descriptor, used as the out-of-range default when indexing. -/
def zeroDescriptor : MpuRegionDescriptor :=
  { rgd_word0 := 0, rgd_word1 := 0, rgd_word2 := 0, rgd_word3 := 0 }

/-- The MPU register state touched by `configure_mpu`: the twelve region
descriptors `rgds` and the alternate access-control word of descriptor 0. -/
structure MpuHw where
  rgds : List MpuRegionDescriptor
  rgdaac0 : Nat
deriving DecidableEq, Repr

/-- A reset-like hardware state: twelve zero descriptors, zero `rgdaac0`. -/
def MpuHw.zero : MpuHw := { rgds := List.replicate 12 zeroDescriptor, rgdaac0 := 0 }

/-- Apply `f` to the element at position `n` (Rust `regs.rgds[n]` update). -/
def modifyAt (l : List MpuRegionDescriptor) (n : Nat)
    (f : MpuRegionDescriptor → MpuRegionDescriptor) : List MpuRegionDescriptor :=
  match l, n with
  | [], _ => []
  | d :: rest, 0 => f d :: rest
  | d :: rest, n + 1 => d :: modifyAt rest n f

/-- The body of `configure_mpu`'s loop for one slot: for a present region,
`write` all four descriptor words (`SRTADDR.val(start >> 5)`,
`ENDADDR.val(end >> 5)`, `M0SM::SameAsUserMode + M0UM.val(user)`, `VLD::SET`);
for an absent slot, `write` word3 with `VLD::CLEAR` (a full-register write,
so word3 becomes 0) and leave the other words untouched. -/
def writeDescriptor (r : Option Region) (d : MpuRegionDescriptor) : MpuRegionDescriptor :=
  match r with
  | some region =>
    { rgd_word0 := region.start / 2 ^ 5 % 2 ^ 27 * 2 ^ 5,
      rgd_word1 := region.end_ / 2 ^ 5 % 2 ^ 27 * 2 ^ 5,
      rgd_word2 := M0SM_SameAsUserMode * 2 ^ M0SM_OFFSET +
        region.permissions % 2 ^ M0UM_NUMBITS * 2 ^ M0UM_OFFSET,
      rgd_word3 := 1 }
  | none => { d with rgd_word3 := 0 }

/-- `configure_mpu`'s `for (index, region) in config.regions.iter().enumerate()`
loop: flush each slot to hardware descriptor `index + 1` (`n` is the running
descriptor number, starting at 1). -/
def flushRegions : List (Option Region) → Nat → List MpuRegionDescriptor →
    List MpuRegionDescriptor
  | [], _, rgds => rgds
  | r :: rest, n, rgds => flushRegions rest (n + 1) (modifyAt rgds n (writeDescriptor r))

/-- `configure_mpu`: clear descriptor 0's reset-default user-mode grant via
`rgdaacs[0]` (`M0SM::ReadWriteExecute`, `M0UM::CLEAR`), then flush every
logical slot `i` to hardware descriptor `i + 1`. -/
def configureMpu (config : MK66Config) (hw : MpuHw) : MpuHw :=
  let rgdaac0 := setField hw.rgdaac0 M0SM_OFFSET M0SM_NUMBITS M0SM_ReadWriteExecute
  let rgdaac0 := setField rgdaac0 M0UM_OFFSET M0UM_NUMBITS 0
  { rgds := flushRegions config.regions 1 hw.rgds, rgdaac0 := rgdaac0 }

/-- `ControlErrorStatus::NRGD`: OFFSET(8) NUMBITS(4). -/
def NRGD_OFFSET : Nat := 8
def NRGD_NUMBITS : Nat := 4

/-- The NRGD field value read from a `cesr` register value. -/
def nrgdRead (cesr : Nat) : Nat := getField cesr NRGD_OFFSET NRGD_NUMBITS

/-- The match arms of `number_total_regions`: `Eight = 0 → 8`,
`Twelve = 1 → 12`, `Sixteen = 2 → 16`; any other field value has no arm —
the spec's `UnknownRegionCountEncoding` condition, modelled as `none`. -/
def numberTotalRegionsOfField : Nat → Option Nat
  | 0 => some 8
  | 1 => some 12
  | 2 => some 16
  | _ => none

/-- `number_total_regions` as a function of the `cesr` register value. -/
def numberTotalRegions (cesr : Nat) : Option Nat :=
  numberTotalRegionsOfField (nrgdRead cesr)

/-- The driver's public configuration-mutating operations (`configure_mpu`
takes the configuration by shared reference and cannot mutate it, so it is
modelled as the identity on the configuration). -/
inductive Op where
  | allocRegion (unallocatedMemoryStart unallocatedMemorySize minRegionSize : Nat)
      (permissions : Permissions)
  | allocAppMemoryRegion (unallocatedMemoryStart unallocatedMemorySize minMemorySize
      initialAppMemorySize initialKernelMemorySize : Nat) (permissions : Permissions)
  | updateAppMemory (appMemoryBreak kernelMemoryBreak : Nat) (permissions : Permissions)
  | configure

/-- Run one public operation on a configuration; on failure the `&mut`
configuration is left unchanged, exactly as in the Rust code. -/
def applyOp (config : MK66Config) : Op → MK66Config
  | .allocRegion s z m p =>
    match allocateRegion s z m p config with
    | .ok (_, config') => config'
    | .error _ => config
  | .allocAppMemoryRegion s z m a k p =>
    match allocateAppMemoryRegion s z m a k p config with
    | some (_, config') => config'
    | none => config
  | .updateAppMemory a k p =>
    match updateAppMemoryRegion a k p config with
    | some config' => config'
    | none => config
  | .configure => config

/-- Run `n` successive `allocate_region(0, 2^20, 32, ReadOnly)` calls
(the spec's end-to-end scenario B), demanding that each one succeed. -/
def allocSeq : Nat → MK66Config → Option MK66Config
  | 0, config => some config
  | n + 1, config =>
    match allocateRegion 0 1048576 32 .ReadOnly config with
    | .ok (_, config') => allocSeq n config'
    | .error _ => none

/-- The configuration reached from `Default` by ten successful
`allocate_region` calls: every non-app slot occupied. -/
def fullConfig : MK66Config :=
  match allocSeq 10 MK66Config.default with
  | some config => config
  | none => MK66Config.default

/-- A configuration holding a single ordinary region in slot 0. -/
def oneRegionConfig : MK66Config :=
  { memory := none, regions := some (Region.new 0 32 .ReadOnly) :: List.replicate 10 none }

/-- A configuration holding regions only at logical indices 0 and 3
(the spec's end-to-end scenario C). -/
def scenarioCConfig : MK66Config :=
  { memory := none,
    regions := [some (Region.new 0 32 .ReadOnly), none, none,
      some (Region.new 64 96 .ReadOnly), none, none, none, none, none, none, none] }

/-! ### Arithmetic helper lemmas -/

lemma wrap_eq_of_lt {a : Nat} (h : a < U32) : wrap a = a := Nat.mod_eq_of_lt h

lemma U32_pos : 0 < U32 := by norm_num [U32]

lemma roundUp_eq_of_mod_eq_zero {x y : Nat} (h : x % y = 0) :
    roundUpToNearestMultiple x y = x := by
  simp [roundUpToNearestMultiple, h]

lemma roundUp_eq_sub {x y : Nat} (hy : 0 < y) (h0 : x % y ≠ 0) (h : x + y ≤ U32) :
    roundUpToNearestMultiple x y = x + y - x % y := by
  have hr2 : x % y < y := Nat.mod_lt _ hy
  have hr3 : x % y ≤ x := Nat.mod_le _ _
  have hU : 0 < U32 := U32_pos
  rw [roundUpToNearestMultiple, if_neg h0]
  show ((x + y) % U32 + U32 - x % y % U32) % U32 = x + y - x % y
  have hrU : x % y % U32 = x % y := Nat.mod_eq_of_lt (by omega)
  rw [hrU]
  rcases Nat.lt_or_ge (x + y) U32 with hlt | hge
  · rw [Nat.mod_eq_of_lt hlt]
    have heq : x + y + U32 - x % y = x + y - x % y + U32 := by omega
    rw [heq, Nat.add_mod_right]
    exact Nat.mod_eq_of_lt (by omega)
  · have heq : x + y = U32 := le_antisymm h hge
    rw [heq, Nat.mod_self]
    have heq2 : 0 + U32 - x % y = U32 - x % y := by omega
    rw [heq2, Nat.mod_eq_of_lt (by omega)]

lemma roundUp_mod {x y : Nat} (hy : 0 < y) (h : x + y ≤ U32) :
    roundUpToNearestMultiple x y % y = 0 := by
  by_cases h0 : x % y = 0
  · rw [roundUp_eq_of_mod_eq_zero h0]; exact h0
  · rw [roundUp_eq_sub hy h0 h]
    have hdm := Nat.div_add_mod x y
    have hr3 : x % y ≤ x := Nat.mod_le _ _
    have h2 : x + y - x % y = y * (x / y) + y := by omega
    have h3 : y * (x / y) + y = y * (x / y + 1) := by ring
    rw [h2, h3, Nat.mul_mod_right]

lemma le_roundUp {x y : Nat} (hy : 0 < y) (h : x + y ≤ U32) :
    x ≤ roundUpToNearestMultiple x y := by
  by_cases h0 : x % y = 0
  · rw [roundUp_eq_of_mod_eq_zero h0]
  · rw [roundUp_eq_sub hy h0 h]
    have hr2 : x % y < y := Nat.mod_lt _ hy
    omega

lemma roundUp_lt {x y : Nat} (hy : 0 < y) (h : x + y ≤ U32) :
    roundUpToNearestMultiple x y < x + y := by
  by_cases h0 : x % y = 0
  · rw [roundUp_eq_of_mod_eq_zero h0]; omega
  · rw [roundUp_eq_sub hy h0 h]
    have hr3 : x % y ≤ x := Nat.mod_le _ _
    omega

/-! ### C4: round-up arithmetic -/

/-- C4 counterexample: over the 32-bit wrapping arithmetic the driver uses,
`round_up_to_nearest_multiple(2^32 - 1, 32)` wraps around to `0`, which is
strictly smaller than the argument — so `round_up(x, y) >= x` fails. -/
theorem roundUp_overflow_c4_counterexample :
    0 < 32 ∧ roundUpToNearestMultiple (2 ^ 32 - 1) 32 < 2 ^ 32 - 1 := by decide

/-- C4 (amended): for all `x` and `y > 0` such that the rounded value does
not overflow u32 (`x + y ≤ 2^32`), `round_up_to_nearest_multiple(x, y)` is a
multiple of `y`, is at least `x`, and exceeds `x` by strictly less than `y`. -/
theorem roundUp_bounds_c4 (x y : Nat) (hy : 0 < y) (h : x + y ≤ U32) :
    roundUpToNearestMultiple x y % y = 0 ∧ x ≤ roundUpToNearestMultiple x y ∧
      roundUpToNearestMultiple x y - x < y := by
  refine ⟨roundUp_mod hy h, le_roundUp hy h, ?_⟩
  have h1 := roundUp_lt hy h
  have h2 := le_roundUp hy h
  omega

/-- C4 witness: the amended bounds at `x = 5`, `y = 32`. -/
theorem roundUp_bounds_c4_witness :
    roundUpToNearestMultiple 5 32 % 32 = 0 ∧ 5 ≤ roundUpToNearestMultiple 5 32 ∧
      roundUpToNearestMultiple 5 32 - 5 < 32 :=
  roundUp_bounds_c4 5 32 (by decide) (by norm_num [U32])

/-! ### C2, C5: allocate_region failure behaviour -/

/-- C2 counterexample: on the reachable configuration in which all ten
non-reserved slots are occupied, a call whose rounded region exactly fits
the unallocated span (`round_up(0,32) + round_up(32,32) = 0 + 32`) does not
succeed: it fails at the table-full check. -/
theorem alloc_region_boundary_c2_counterexample :
    allocSeq 10 MK66Config.default = some fullConfig ∧
    roundUpToNearestMultiple 0 32 + roundUpToNearestMultiple 32 32 = 0 + 32 ∧
    allocateRegion 0 32 32 .ReadOnly fullConfig = .error .TableFull := by decide

/-- C2 (amended): absent u32 overflow, `allocate_region` fails with
`CapacityExhausted` exactly when
`round_up(start, 32) + round_up(min_size, 32) > start + size`; in the
boundary case of equality it never fails with `CapacityExhausted`, and it
succeeds whenever a free slot remains. -/
theorem alloc_region_capacity_c2 (us uz mz : Nat) (p : Permissions) (c : MK66Config)
    (h3 : roundUpToNearestMultiple us 32 + roundUpToNearestMultiple mz 32 < U32)
    (h4 : us + uz < U32) :
    (allocateRegion us uz mz p c = .error .CapacityExhausted ↔
      roundUpToNearestMultiple us 32 + roundUpToNearestMultiple mz 32 > us + uz) ∧
    (roundUpToNearestMultiple us 32 + roundUpToNearestMultiple mz 32 = us + uz →
      c.availableRegionIndex ≠ none →
      ∃ r c', allocateRegion us uz mz p c = .ok (r, c')) := by
  rw [allocateRegion]
  simp only [wrap_eq_of_lt h3, wrap_eq_of_lt h4]
  by_cases hc : us + uz < roundUpToNearestMultiple us 32 + roundUpToNearestMultiple mz 32
  · rw [if_pos hc]
    refine ⟨⟨fun _ => hc, fun _ => rfl⟩, fun heq _ => ?_⟩
    omega
  · rw [if_neg hc]
    rcases hidx : c.availableRegionIndex with _ | i
    · exact ⟨⟨fun h => by simp at h, fun hgt => absurd hgt hc⟩,
        fun _ hne => absurd rfl hne⟩
    · exact ⟨⟨fun h => by simp at h, fun hgt => absurd hgt hc⟩,
        fun _ _ => ⟨_, _, rfl⟩⟩

/-- C2 witness: the amended statement instantiated on the default
configuration with span `[0, 64)` and a 32-byte request. -/
theorem alloc_region_capacity_c2_witness :
    (allocateRegion 0 64 32 .ReadOnly MK66Config.default = .error .CapacityExhausted ↔
      roundUpToNearestMultiple 0 32 + roundUpToNearestMultiple 32 32 > 0 + 64) ∧
    (roundUpToNearestMultiple 0 32 + roundUpToNearestMultiple 32 32 = 0 + 64 →
      MK66Config.default.availableRegionIndex ≠ none →
      ∃ r c', allocateRegion 0 64 32 .ReadOnly MK66Config.default = .ok (r, c')) :=
  alloc_region_capacity_c2 0 64 32 .ReadOnly MK66Config.default
    (by decide) (by decide)

/-- C5 counterexample: after ten successful allocations have filled every
non-reserved slot, an eleventh call with a too-small span fails at the
capacity check — `CapacityExhausted`, not `TableFull` — because the
capacity check precedes the free-slot search. -/
theorem alloc_region_order_c5_counterexample :
    allocSeq 10 MK66Config.default = some fullConfig ∧
    allocateRegion 0 0 32 .ReadOnly fullConfig = .error .CapacityExhausted ∧
    MpuError.CapacityExhausted ≠ MpuError.TableFull := by decide

/-- C5 (amended): once every non-reserved slot is occupied, the next
`allocate_region` call always fails; it fails with `TableFull` whenever the
rounded region fits the unallocated span (the capacity check, performed
first, passes), and with `CapacityExhausted` otherwise. -/
theorem alloc_region_table_full_c5 (us uz mz : Nat) (p : Permissions) (c : MK66Config)
    (hfull : c.availableRegionIndex = none) :
    (∃ e, allocateRegion us uz mz p c = .error e) ∧
    (wrap (roundUpToNearestMultiple us 32 + roundUpToNearestMultiple mz 32) ≤
        wrap (us + uz) →
      allocateRegion us uz mz p c = .error .TableFull) := by
  rw [allocateRegion]
  by_cases hc : wrap (us + uz) <
      wrap (roundUpToNearestMultiple us 32 + roundUpToNearestMultiple mz 32)
  · rw [if_pos hc]
    exact ⟨⟨.CapacityExhausted, rfl⟩, fun hle => absurd hc (by omega)⟩
  · rw [if_neg hc, hfull]
    exact ⟨⟨.TableFull, rfl⟩, fun _ => rfl⟩

/-- C5 witness: the amended statement on the full configuration with the
1 MiB span of the spec's scenario B. -/
theorem alloc_region_table_full_c5_witness :
    (∃ e, allocateRegion 0 1048576 32 .ReadOnly fullConfig = .error e) ∧
    (wrap (roundUpToNearestMultiple 0 32 + roundUpToNearestMultiple 32 32) ≤
        wrap (0 + 1048576) →
      allocateRegion 0 1048576 32 .ReadOnly fullConfig = .error .TableFull) :=
  alloc_region_table_full_c5 0 1048576 32 .ReadOnly fullConfig (by decide)

/-! ### C1: the recorded memory pair is never written -/

lemma allocateRegion_ok_memory {us uz mz : Nat} {p : Permissions} {c : MK66Config}
    {r : Nat × Nat} {c' : MK66Config}
    (h : allocateRegion us uz mz p c = .ok (r, c')) : c'.memory = c.memory := by
  rw [allocateRegion] at h
  simp only at h
  repeat' split at h
  all_goals first
    | (simp only [reduceCtorEq] at h)
    | (simp only [Except.ok.injEq, Prod.mk.injEq] at h; rw [← h.2])

lemma allocateAppMemoryRegion_ok_memory {us uz mm ia ik : Nat} {p : Permissions}
    {c : MK66Config} {r : Nat × Nat} {c' : MK66Config}
    (h : allocateAppMemoryRegion us uz mm ia ik p c = some (r, c')) :
    c'.memory = c.memory := by
  rw [allocateAppMemoryRegion] at h
  simp only at h
  repeat' split at h
  all_goals first
    | (simp only [reduceCtorEq] at h)
    | (simp only [Option.some.injEq, Prod.mk.injEq] at h; rw [← h.2])

lemma updateAppMemoryRegion_ok_memory {a k : Nat} {p : Permissions}
    {c c' : MK66Config} (h : updateAppMemoryRegion a k p c = some c') :
    c'.memory = c.memory := by
  rw [updateAppMemoryRegion] at h
  simp only at h
  repeat' split at h
  all_goals first
    | (simp only [reduceCtorEq] at h)
    | (simp only [Option.some.injEq] at h; rw [← h])

lemma applyOp_memory (c : MK66Config) (op : Op) : (applyOp c op).memory = c.memory := by
  cases op with
  | allocRegion s z m p =>
    rcases h : allocateRegion s z m p c with e | ⟨r, c'⟩
    · simp [applyOp, h]
    · simp [applyOp, h, allocateRegion_ok_memory h]
  | allocAppMemoryRegion s z m a k p =>
    rcases h : allocateAppMemoryRegion s z m a k p c with _ | ⟨r, c'⟩
    · simp [applyOp, h]
    · simp [applyOp, h, allocateAppMemoryRegion_ok_memory h]
  | updateAppMemory a k p =>
    rcases h : updateAppMemoryRegion a k p c with _ | c'
    · simp [applyOp, h]
    · simp [applyOp, h, updateAppMemoryRegion_ok_memory h]
  | configure => rfl

lemma foldl_applyOp_memory (ops : List Op) (c : MK66Config) :
    (ops.foldl applyOp c).memory = c.memory := by
  induction ops generalizing c with
  | nil => rfl
  | cons op rest ih => rw [List.foldl_cons, ih, applyOp_memory]

lemma updateAppMemoryRegion_of_memory_none {a k : Nat} {p : Permissions}
    {c : MK66Config} (h : c.memory = none) : updateAppMemoryRegion a k p c = none := by
  rw [updateAppMemoryRegion]
  rcases hr : c.regions.getD APP_MEMORY_INDEX none with _ | reg
  · rfl
  · rw [h]

/-- C1: starting from `Default` and applying any sequence of the driver's
public operations, the recorded application-memory `(start, size)` pair is
still unset, and therefore every `update_app_memory_region` call on the
resulting configuration fails — including one made immediately after a
successful `allocate_app_memory_region`. -/
theorem memory_never_set_c1 (ops : List Op) :
    (ops.foldl applyOp MK66Config.default).memory = none ∧
    ∀ a k p, updateAppMemoryRegion a k p (ops.foldl applyOp MK66Config.default) = none := by
  have hmem : (ops.foldl applyOp MK66Config.default).memory = none :=
    foldl_applyOp_memory ops MK66Config.default
  exact ⟨hmem, fun a k p => updateAppMemoryRegion_of_memory_none hmem⟩

/-! ### C9: the free-slot search protects the app-memory slot -/

lemma findFree_ne_app : ∀ (l : List (Option Region)) (n i : Nat),
    findFree l n = some i → i ≠ APP_MEMORY_INDEX := by
  intro l
  induction l with
  | nil => intro n i h; exact absurd h (by rw [findFree.eq_def]; simp)
  | cons r rest ih =>
    intro n i h
    rw [findFree.eq_def] at h
    simp only at h
    by_cases hn : n = APP_MEMORY_INDEX
    · rw [if_pos hn] at h
      exact ih _ _ h
    · rw [if_neg hn] at h
      cases r with
      | none => injection h with h'; rw [← h']; exact hn
      | some _ => exact ih _ _ h

lemma getD_set_ne {α : Type} (l : List α) (i j : Nat) (a d : α) (h : i ≠ j) :
    (l.set i a).getD j d = l.getD j d := by
  induction l generalizing i j with
  | nil => simp
  | cons x xs ih =>
    cases i with
    | zero =>
      cases j with
      | zero => exact absurd rfl h
      | succ j => simp
    | succ i =>
      cases j with
      | zero => simp
      | succ j => simpa using ih i j (by omega)

/-- C9: the free-slot search never returns the application-memory index,
and `allocate_region` — succeed or fail — leaves the slot at
`APP_MEMORY_INDEX` exactly as it found it. -/
theorem app_slot_reserved_c9 (c : MK66Config) (s z m : Nat) (p : Permissions) :
    c.availableRegionIndex ≠ some APP_MEMORY_INDEX ∧
    (applyOp c (.allocRegion s z m p)).regions.getD APP_MEMORY_INDEX none =
      c.regions.getD APP_MEMORY_INDEX none := by
  constructor
  · intro h
    exact findFree_ne_app c.regions 0 APP_MEMORY_INDEX h rfl
  · rcases h : allocateRegion s z m p c with e | ⟨r, c'⟩
    · simp [applyOp, h]
    · have hc' : c'.regions.getD APP_MEMORY_INDEX none =
          c.regions.getD APP_MEMORY_INDEX none := by
        rw [allocateRegion] at h
        split at h
        · exact absurd h (by simp)
        · rename_i hidx
          split at h
          · exact absurd h (by simp)
          · rename_i idx hsome
            injection h with h'
            have hregs := congrArg MK66Config.regions (congrArg Prod.snd h')
            simp only at hregs
            rw [← hregs]
            exact getD_set_ne _ _ _ _ _ (findFree_ne_app c.regions 0 idx hsome)
      simp only [applyOp, h]
      exact hc'

/-! ### C6: the 32-byte bump keeps the protected prefix inside the span -/

/-- C6: absent u32 overflow, every successful `allocate_app_memory_region`
call returns a `memory_size` with
`round_up(initial_app_memory_size, 32) + initial_kernel_memory_size ≤
memory_size` — the single conditional 32-byte bump always suffices. -/
theorem app_memory_size_c6 (us uz mm ia ik : Nat) (p : Permissions) (c : MK66Config)
    (mstart msize : Nat) (c' : MK66Config)
    (h1 : mm + 64 ≤ U32) (h2 : ia + ik + 64 ≤ U32)
    (hok : allocateAppMemoryRegion us uz mm ia ik p c = some ((mstart, msize), c')) :
    roundUpToNearestMultiple ia 32 + ik ≤ msize := by
  have h32 : (0:Nat) < 32 := by norm_num
  have hwik : wrap (ia + ik) = ia + ik := wrap_eq_of_lt (by omega)
  rw [allocateAppMemoryRegion] at hok
  simp only at hok
  rw [hwik] at hok
  set M := if mm < ia + ik then ia + ik else mm with hMdef
  have hM1 : ia + ik ≤ M := by rw [hMdef]; split <;> omega
  have hM2 : M + 64 ≤ U32 := by rw [hMdef]; split <;> omega
  set m1 := roundUpToNearestMultiple M 32 with hm1def
  have hm1a : M ≤ m1 := le_roundUp h32 (by omega)
  have hm1b : m1 < M + 32 := roundUp_lt h32 (by omega)
  set rs := roundUpToNearestMultiple ia 32 with hrsdef
  have hrsa : ia ≤ rs := le_roundUp h32 (by omega)
  have hrsb : rs < ia + 32 := roundUp_lt h32 (by omega)
  have hwrs : wrap (rs + ik) = rs + ik := wrap_eq_of_lt (by omega)
  have hwm : wrap (m1 + 32) = m1 + 32 := wrap_eq_of_lt (by omega)
  rw [hwrs, hwm] at hok
  by_cases hbump : rs + ik > m1
  · rw [if_pos hbump] at hok
    split at hok
    · simp only [reduceCtorEq] at hok
    · simp only [Option.some.injEq, Prod.mk.injEq] at hok
      obtain ⟨⟨hs, hz⟩, _⟩ := hok
      omega
  · rw [if_neg hbump] at hok
    split at hok
    · simp only [reduceCtorEq] at hok
    · simp only [Option.some.injEq, Prod.mk.injEq] at hok
      obtain ⟨⟨hs, hz⟩, _⟩ := hok
      omega

/-- C6 witness: the bound at the spec's scenario-A inputs, where the call
succeeds with `memory_size = 0x800`. -/
theorem app_memory_size_c6_witness :
    roundUpToNearestMultiple 1024 32 + 1024 ≤ 2048 :=
  app_memory_size_c6 4096 16384 2048 1024 1024 .ReadWriteOnly MK66Config.default
    4096 2048
    { memory := none,
      regions := [none, some (Region.new 4096 5120 .ReadWriteOnly), none, none, none,
        none, none, none, none, none, none] }
    (by norm_num [U32]) (by norm_num [U32]) (by decide)

/-! ### C3, C7: configure_mpu descriptor writes -/

lemma length_modifyAt (l : List MpuRegionDescriptor) (n : Nat)
    (f : MpuRegionDescriptor → MpuRegionDescriptor) : (modifyAt l n f).length = l.length := by
  induction l generalizing n with
  | nil => rfl
  | cons d rest ih =>
    cases n with
    | zero => rfl
    | succ n => simpa [modifyAt] using ih n

lemma getD_modifyAt_self (l : List MpuRegionDescriptor) (n : Nat)
    (f : MpuRegionDescriptor → MpuRegionDescriptor) (d : MpuRegionDescriptor)
    (h : n < l.length) : (modifyAt l n f).getD n d = f (l.getD n d) := by
  induction l generalizing n with
  | nil => simp at h
  | cons x rest ih =>
    cases n with
    | zero => simp [modifyAt]
    | succ n => simpa [modifyAt] using ih n (by simpa using h)

lemma getD_modifyAt_ne (l : List MpuRegionDescriptor) (n m : Nat)
    (f : MpuRegionDescriptor → MpuRegionDescriptor) (d : MpuRegionDescriptor)
    (h : m ≠ n) : (modifyAt l n f).getD m d = l.getD m d := by
  induction l generalizing n m with
  | nil => rfl
  | cons x rest ih =>
    cases n with
    | zero =>
      cases m with
      | zero => exact absurd rfl h
      | succ m => simp [modifyAt]
    | succ n =>
      cases m with
      | zero => simp [modifyAt]
      | succ m => simpa [modifyAt] using ih n m (by omega)

lemma length_flushRegions (rs : List (Option Region)) (n : Nat)
    (rgds : List MpuRegionDescriptor) : (flushRegions rs n rgds).length = rgds.length := by
  induction rs generalizing n rgds with
  | nil => rfl
  | cons r rest ih =>
    rw [flushRegions, ih (n + 1) (modifyAt rgds n (writeDescriptor r)), length_modifyAt]

lemma getD_flushRegions_lt (rs : List (Option Region)) (n j : Nat)
    (rgds : List MpuRegionDescriptor) (d : MpuRegionDescriptor) (h : j < n) :
    (flushRegions rs n rgds).getD j d = rgds.getD j d := by
  induction rs generalizing n rgds with
  | nil => rfl
  | cons r rest ih =>
    rw [flushRegions, ih (n + 1) _ (by omega), getD_modifyAt_ne _ _ _ _ _ (by omega)]

lemma getD_flushRegions (rs : List (Option Region)) (n i : Nat)
    (rgds : List MpuRegionDescriptor) (d : MpuRegionDescriptor)
    (h1 : i < rs.length) (h2 : n + i < rgds.length) :
    (flushRegions rs n rgds).getD (n + i) d =
      writeDescriptor (rs.getD i none) (rgds.getD (n + i) d) := by
  induction rs generalizing n i rgds with
  | nil => simp at h1
  | cons r rest ih =>
    cases i with
    | zero =>
      rw [flushRegions, getD_flushRegions_lt _ _ _ _ _ (by omega)]
      simpa using getD_modifyAt_self rgds n (writeDescriptor r) d (by omega)
    | succ i =>
      have hstep : n + (i + 1) = (n + 1) + i := by omega
      rw [flushRegions, hstep,
        ih (n + 1) i _ (by simpa using h1) (by rw [length_modifyAt]; omega),
        getD_modifyAt_ne _ _ _ _ _ (by omega)]
      simp

lemma getD_lt_length_of_some {l : List (Option Region)} {i : Nat} {reg : Region}
    (h : l.getD i none = some reg) : i < l.length := by
  by_contra hge
  rw [List.getD_eq_default] at h
  · exact absurd h (by simp)
  · omega

/-- C3 counterexample: for a present region, `configure_mpu` writes the
supervisor-mode field of the access-control word as `SameAsUserMode` (3),
which is not the full-access encoding `ReadWriteExecute` (0) — supervisor
mode is not granted full access in the region's descriptor. -/
theorem configure_supervisor_c3_counterexample :
    getField ((configureMpu oneRegionConfig MpuHw.zero).rgds.getD 1 zeroDescriptor).rgd_word2
        M0SM_OFFSET M0SM_NUMBITS = M0SM_SameAsUserMode ∧
    M0SM_SameAsUserMode ≠ M0SM_ReadWriteExecute := by decide

/-- C3 (amended): for every region present in the configuration,
`configure_mpu` writes that region's hardware access-control word so that
the supervisor-mode field holds `SameAsUserMode` (supervisor access follows
the user grant, not unconditional full access) and the user-mode field holds
exactly the region's stored 3-bit permission value. -/
theorem configure_word2_c3 (c : MK66Config) (hw : MpuHw) (i : Nat) (reg : Region)
    (hlen : hw.rgds.length = 12) (hi : i < 11)
    (hreg : c.regions.getD i none = some reg) :
    getField ((configureMpu c hw).rgds.getD (i + 1) zeroDescriptor).rgd_word2
        M0SM_OFFSET M0SM_NUMBITS = M0SM_SameAsUserMode ∧
    getField ((configureMpu c hw).rgds.getD (i + 1) zeroDescriptor).rgd_word2
        M0UM_OFFSET M0UM_NUMBITS = reg.permissions % 2 ^ M0UM_NUMBITS := by
  have hilen : i < c.regions.length := getD_lt_length_of_some hreg
  have hstep : i + 1 = 1 + i := by omega
  rw [configureMpu]
  simp only
  rw [hstep, getD_flushRegions c.regions 1 i hw.rgds zeroDescriptor hilen (by omega), hreg]
  rw [writeDescriptor]
  have hperm : reg.permissions % 2 ^ M0UM_NUMBITS < 8 := by
    have : (2:Nat) ^ M0UM_NUMBITS = 8 := by norm_num [M0UM_NUMBITS]
    omega
  constructor
  · show (M0SM_SameAsUserMode * 2 ^ M0SM_OFFSET +
      reg.permissions % 2 ^ M0UM_NUMBITS * 2 ^ M0UM_OFFSET) / 2 ^ M0SM_OFFSET %
        2 ^ M0SM_NUMBITS = M0SM_SameAsUserMode
    norm_num [M0SM_OFFSET, M0SM_NUMBITS, M0SM_SameAsUserMode, M0UM_OFFSET, M0UM_NUMBITS]
    omega
  · show (M0SM_SameAsUserMode * 2 ^ M0SM_OFFSET +
      reg.permissions % 2 ^ M0UM_NUMBITS * 2 ^ M0UM_OFFSET) / 2 ^ M0UM_OFFSET %
        2 ^ M0UM_NUMBITS = reg.permissions % 2 ^ M0UM_NUMBITS
    norm_num [M0SM_OFFSET, M0SM_NUMBITS, M0SM_SameAsUserMode, M0UM_OFFSET, M0UM_NUMBITS]
    omega

/-- C3 witness: the amended statement instantiated on a configuration with
one `ReadOnly` region (stored permission `0b100`) at slot 0. -/
theorem configure_word2_c3_witness :
    getField ((configureMpu oneRegionConfig MpuHw.zero).rgds.getD 1 zeroDescriptor).rgd_word2
        M0SM_OFFSET M0SM_NUMBITS = M0SM_SameAsUserMode ∧
    getField ((configureMpu oneRegionConfig MpuHw.zero).rgds.getD 1 zeroDescriptor).rgd_word2
        M0UM_OFFSET M0UM_NUMBITS = (Region.new 0 32 .ReadOnly).permissions % 2 ^ M0UM_NUMBITS :=
  configure_word2_c3 oneRegionConfig MpuHw.zero 0 (Region.new 0 32 .ReadOnly)
    (by decide) (by decide) (by decide)

/-- C7: `configure_mpu` maps every logical slot `i` to hardware descriptor
`i + 1`, marking it valid (`VLD = 1`, a full-word write of `VLD::SET`)
exactly when a region is present and invalid (`VLD = 0`) otherwise; on the
configuration of scenario C (regions only at indices 0 and 3), the twelve
descriptors' word3 values come out `[0, 1, 0, 0, 1, 0, 0, 0, 0, 0, 0, 0]` —
descriptors 1 and 4 valid, descriptors 2, 3 and 5–11 invalid. -/
theorem configure_valid_bits_c7 :
    ((configureMpu scenarioCConfig MpuHw.zero).rgds.map MpuRegionDescriptor.rgd_word3) =
      [0, 1, 0, 0, 1, 0, 0, 0, 0, 0, 0, 0] ∧
    ∀ (c : MK66Config) (hw : MpuHw) (i : Nat), hw.rgds.length = 12 → i < 11 →
      i < c.regions.length →
      ((configureMpu c hw).rgds.getD (i + 1) zeroDescriptor).rgd_word3 =
        if (c.regions.getD i none).isSome then 1 else 0 := by
  constructor
  · decide
  · intro c hw i hlen hi hilen
    have hstep : i + 1 = 1 + i := by omega
    rw [configureMpu]
    simp only
    rw [hstep, getD_flushRegions c.regions 1 i hw.rgds zeroDescriptor hilen (by omega)]
    rcases hr : c.regions.getD i none with _ | reg
    · simp [writeDescriptor]
    · simp [writeDescriptor]

/-- C7 witness: the per-slot law applied at slot 3 of the scenario-C
configuration, whose hardware descriptor 4 comes out valid. -/
theorem configure_valid_bits_c7_witness :
    ((configureMpu scenarioCConfig MpuHw.zero).rgds.getD 4 zeroDescriptor).rgd_word3 =
      if (scenarioCConfig.regions.getD 3 none).isSome then 1 else 0 :=
  configure_valid_bits_c7.2 scenarioCConfig MpuHw.zero 3 (by decide) (by decide) (by decide)

/-! ### C8: end-to-end scenario A -/

/-- C8: `allocate_app_memory_region(start=0x1000, size=0x4000,
min_memory_size=0x800, initial_app_size=0x400, initial_kernel_size=0x400,
perm=ReadWrite)` on the default configuration succeeds, returns
`memory_start = 0x1000` and `memory_size = 0x800 ≥ 0x800`, and stores at
`APP_MEMORY_INDEX` a region spanning `[0x1000, 0x1400)`. -/
theorem app_memory_scenario_a_c8 :
    allocateAppMemoryRegion 4096 16384 2048 1024 1024 .ReadWriteOnly MK66Config.default =
      some ((4096, 2048),
        { memory := none,
          regions := [none, some { start := 4096, end_ := 5120, permissions := 0b110 },
            none, none, none, none, none, none, none, none, none] }) ∧
    2048 ≥ (2048:Nat) := by decide

/-! ### C10: number_total_regions and the NRGD field -/

/-- C10 counterexample: the region-count field the code reads is 4 bits wide
(`NRGD OFFSET(8) NUMBITS(4)`), not 2: reading `cesr = 0x800` yields field
value 8, which no 2-bit field can hold, and that value falls into the
undefined (`UnknownRegionCountEncoding`) case. -/
theorem nrgd_width_c10_counterexample :
    nrgdRead 2048 = 8 ∧ ¬ nrgdRead 2048 < 2 ^ 2 ∧ numberTotalRegions 2048 = none := by decide

/-- C10 (amended): `number_total_regions` reads the 4-bit NRGD hardware
field and maps it via the fixed enumeration `Eight → 8`, `Twelve → 12`,
`Sixteen → 16`; every other value the 4-bit field can hold (3–15) has no
defined return value and is the `UnknownRegionCountEncoding`
inconsistent-hardware condition, modelled as `none`. -/
theorem number_total_regions_c10 (cesr : Nat) :
    nrgdRead cesr < 2 ^ NRGD_NUMBITS ∧
    (numberTotalRegions cesr = some 8 ↔ nrgdRead cesr = 0) ∧
    (numberTotalRegions cesr = some 12 ↔ nrgdRead cesr = 1) ∧
    (numberTotalRegions cesr = some 16 ↔ nrgdRead cesr = 2) ∧
    (numberTotalRegions cesr = none ↔ 3 ≤ nrgdRead cesr) := by
  constructor
  · have : (0:Nat) < 2 ^ NRGD_NUMBITS := Nat.pos_pow_of_pos _ (by norm_num)
    exact Nat.mod_lt _ this
  · rw [numberTotalRegions]
    rcases hv : nrgdRead cesr with _ | _ | _ | v <;>
      simp [numberTotalRegionsOfField]

end MK66
